import Mathlib

/-!
Verification of the reliable-UDP transport of the `net` repository.

The definitions below are a shallow embedding of the Go sources:
bytes are `Nat` values below 256, byte slices are `List Nat`, machine
integers are `Nat` with explicit reduction modulo `2 ^ 32` or `256`
where the Go code can overflow, `time.Time` values are abstract `Nat`
timestamps passed in as a `now` parameter, and a Go `panic` is the
`panicked` constructor of `GoResult` (distinct from any value the Go
function's signature can return).  Mutating methods become functions
from the receiver's state to the updated state.
-/

namespace SkycoinNet

/-- Result of running a Go function that may panic: either the returned
value or the panic payload.  Go format-string arguments inside panic
messages are elided; the payload keeps the constant part of the text. -/
inductive GoResult (α : Type) where
  | ok (val : α)
  | panicked (message : String)
deriving DecidableEq

/-- Big-endian 4-byte encoding of a 32-bit value
(`binary.BigEndian.PutUint32`). -/
def be32 (n : Nat) : List Nat :=
  [n / 2 ^ 24 % 256, n / 2 ^ 16 % 256, n / 2 ^ 8 % 256, n % 256]

/-- Big-endian 4-byte read at offset `i`
(`binary.BigEndian.Uint32(xs[i:i+4])`); out-of-range bytes read as 0. -/
def beUint32At (xs : List Nat) (i : Nat) : Nat :=
  xs.getD i 0 * 2 ^ 24 + xs.getD (i + 1) 0 * 2 ^ 16 + xs.getD (i + 2) 0 * 2 ^ 8 +
    xs.getD (i + 3) 0

/-- Effect of Go `copy(dst, src)` into a zeroed buffer of length `l`:
the first `min l src.length` bytes come from `src`, the rest stay 0. -/
def padTo (l : Nat) (xs : List Nat) : List Nat :=
  xs.take l ++ List.replicate (l - xs.length) 0

/-- Reflected IEEE CRC-32 polynomial used by Go's `hash/crc32`. -/
def CRC32_POLY : Nat := 0xEDB88320

/-- One bit step of the reflected CRC-32 computation. -/
def crc32Round (c : Nat) : Nat :=
  if c % 2 = 1 then c / 2 ^^^ CRC32_POLY else c / 2

/-- Fold one byte into a CRC-32 accumulator. -/
def crc32Byte (c b : Nat) : Nat := crc32Round^[8] (c ^^^ b % 256)

/-- `crc32.ChecksumIEEE`: bitwise definition of the IEEE CRC-32 over a
byte sequence. -/
def ChecksumIEEE (data : List Nat) : Nat :=
  data.foldl crc32Byte 0xFFFFFFFF ^^^ 0xFFFFFFFF

/-! Layout constants of the wire format.  The constants file of the
`msg` package is not part of the sources at hand; the values are
modelled from the spec's framing table
`| crc32 (4) | type (1) | seq (4) | len (4) | body (len) |` with
`MSG_HEADER_SIZE = 9` and `PKG_HEADER_SIZE = 4`. -/

/-- Modelled from the spec: offset of the type byte in a message header. -/
def MSG_TYPE_BEGIN : Nat := 0

/-- Modelled from the spec: start of the big-endian seq field. -/
def MSG_SEQ_BEGIN : Nat := 1

/-- Modelled from the spec: end of the seq field (also the size of an
ack datagram built by `UDPConn.Ack`). -/
def MSG_SEQ_END : Nat := 5

/-- Modelled from the spec: start of the big-endian len field. -/
def MSG_LEN_BEGIN : Nat := 5

/-- Modelled from the spec: end of the len field. -/
def MSG_LEN_END : Nat := 9

/-- Modelled from the spec: size of the message header `type|seq|len`. -/
def MSG_HEADER_SIZE : Nat := 9

/-- Modelled from the spec: end of the message header. -/
def MSG_HEADER_END : Nat := 9

/-- Modelled from the spec: size of the package header (the CRC-32). -/
def PKG_HEADER_SIZE : Nat := 4

/-- Modelled from the spec: offset of the CRC-32 in a framed datagram. -/
def PKG_CRC32_BEGIN : Nat := 0

/-- Maximum UDP datagram size (`conn` package). -/
def MAX_UDP_PACKAGE_SIZE : Nat := 1024

/-- Modelled from the spec: the largest body length accepted by the
codec; the spec constrains it only to be an MTU-safe maximum after
framing, so it is taken as `MAX_UDP_PACKAGE_SIZE` minus the two
headers.  Its exact value is immaterial to the claims below. -/
def MAX_MESSAGE_SIZE : Nat := MAX_UDP_PACKAGE_SIZE - PKG_HEADER_SIZE - MSG_HEADER_SIZE

/-- Modelled from the spec: `status` is a bitfield with a transmitted
bit and an acked bit; the concrete bit positions are immaterial. -/
def MSG_STATUS_TRANSMITTED : Nat := 1

/-- Modelled from the spec: the acked bit of the `status` bitfield. -/
def MSG_STATUS_ACKED : Nat := 2

/-- Modelled from the spec: type byte of a payload-carrying message.
The numeric value is not fixed by the sources at hand and is
immaterial to the claims below. -/
def TYPE_NORMAL : Nat := 1

/-- Modelled from the spec: type byte of an acknowledgement. -/
def TYPE_ACK : Nat := 2

/-- State of a `msg.Message` together with the extra fields of its UDP
extension `msg.UDPMessage` (`miss`, `delivered`, `deliveryTime`); the
`resendTimer` handle itself is real-time machinery and is not part of
the state, its firing is modelled by `UDPMessage.fireRTO` below. -/
structure Message where
  MsgType : Nat
  Seq : Nat
  Len : Nat
  Body : List Nat
  status : Nat
  transmittedAt : Nat
  ackedAt : Nat
  rtt : Nat
  cache : List Nat
  miss : Nat
  delivered : Nat
  deliveryTime : Nat
deriving DecidableEq

instance : Inhabited Message :=
  ⟨{ MsgType := 0, Seq := 0, Len := 0, Body := [], status := 0, transmittedAt := 0,
     ackedAt := 0, rtt := 0, cache := [], miss := 0, delivered := 0, deliveryTime := 0 }⟩

/-- `msg.New`: build a message from type, seq and body. -/
def Message.New (t seq : Nat) (bytes : List Nat) : Message :=
  { MsgType := t, Seq := seq, Len := bytes.length, Body := bytes, status := 0,
    transmittedAt := 0, ackedAt := 0, rtt := 0, cache := [], miss := 0,
    delivered := 0, deliveryTime := 0 }

/-- The `type | seq | len | body` encoding shared by `Bytes` and
`PkgBytes`: a buffer of `MSG_HEADER_SIZE + Len` bytes with the body
copied in at offset `MSG_HEADER_END`. -/
def Message.headerAndBody (m : Message) : List Nat :=
  m.MsgType % 256 :: (be32 m.Seq ++ be32 m.Len ++ padTo m.Len m.Body)

/-- `msg.Message.Bytes`: returns the cache when non-empty, otherwise
encodes `type | seq | len | body` and stores it in the cache. -/
def Message.Bytes (m : Message) : List Nat × Message :=
  if m.cache.length > 0 then (m.cache, m)
  else
    let result := m.headerAndBody
    (result, { m with cache := result })

/-- `msg.Message.PkgBytes`: returns the cache when non-empty, otherwise
encodes `crc32 | type | seq | len | body` and stores it in the cache. -/
def Message.PkgBytes (m : Message) : List Nat × Message :=
  if m.cache.length > 0 then (m.cache, m)
  else
    let inner := m.headerAndBody
    let result := be32 (ChecksumIEEE inner) ++ inner
    (result, { m with cache := result })

/-- `msg.Message.TotalSize`: length of the cache when non-empty,
otherwise `MSG_HEADER_SIZE + len(Body)`. -/
def Message.TotalSize (m : Message) : Nat :=
  if m.cache.length > 0 then m.cache.length else MSG_HEADER_SIZE + m.Body.length

/-- `msg.Message.Transmitted`: set the transmitted bit and stamp the
transmission time. -/
def Message.Transmitted (now : Nat) (m : Message) : Message :=
  { m with status := m.status ||| MSG_STATUS_TRANSMITTED, transmittedAt := now }

/-- `msg.Message.Acked` (and `msg.UDPMessage.Acked`, which additionally
stops the real-time resend timer): set the acked bit, stamp the ack
time and record the round trip time. -/
def Message.Acked (now : Nat) (m : Message) : Message :=
  { m with status := m.status ||| MSG_STATUS_ACKED, ackedAt := now,
           rtt := now - m.transmittedAt }

/-- `msg.NewByHeader`: parse a message header; panics when the len
field exceeds `MAX_MESSAGE_SIZE`, otherwise allocates a zeroed body of
`Len` bytes. -/
def NewByHeader (header : List Nat) : GoResult Message :=
  let t := header.getD MSG_TYPE_BEGIN 0
  let seq := beUint32At header MSG_SEQ_BEGIN
  let len := beUint32At header MSG_LEN_BEGIN
  if len > MAX_MESSAGE_SIZE then
    .panicked ("msg len > max len")
  else
    .ok { MsgType := t, Seq := seq, Len := len, Body := List.replicate len 0,
          status := 0, transmittedAt := 0, ackedAt := 0, rtt := 0, cache := [],
          miss := 0, delivered := 0, deliveryTime := 0 }

/-- `msg.UDPMessage.Miss`: atomically increment the miss counter and
return its new value. -/
def UDPMessage.Miss (m : Message) : Nat × Message :=
  (m.miss + 1, { m with miss := m.miss + 1 })

/-- `msg.UDPMessage.ResetMiss`: atomically store 0 into the miss
counter. -/
def UDPMessage.ResetMiss (m : Message) : Message := { m with miss := 0 }

/-- Body of the `time.AfterFunc` closure armed by
`msg.UDPMessage.SetRTO`, run when the RTO timer fires.  `resendErr` is
the result of the resend callback `fn` (`none` on success).  Returns
the message state after the firing together with two booleans: whether
the resend callback was invoked, and whether the timer was re-armed
(`SetRTO` called again). -/
def UDPMessage.fireRTO (m : Message) (resendErr : Option String) :
    Message × Bool × Bool :=
  if m.status &&& MSG_STATUS_ACKED > 0 then (m, false, false)
  else (UDPMessage.ResetMiss m, true, resendErr.isNone)

/-- `conn.UDPConn.ReadLoop` from the sources at hand: its entire body
is `panic("UDPConn unimplemented ReadLoop")`.  Were it implemented, a
successful run would yield the list of byte messages delivered to the
inbound channel `In`. -/
def UDPConn.ReadLoop : GoResult (List (List Nat)) :=
  .panicked ("UDPConn unimplemented ReadLoop")

/-- `conn.UDPConn.Write`: increment the 32-bit seq counter, build a
NORMAL message, and put `m.Bytes()` on the wire.  Takes the current
seq counter, returns the new counter and the datagram written to the
socket (the `AddMsg` bookkeeping is modelled by the pending map
below). -/
def UDPConn.Write (seq : Nat) (bytes : List Nat) : Nat × List Nat :=
  let s := (seq + 1) % 2 ^ 32
  let m := Message.New TYPE_NORMAL s bytes
  (s, m.Bytes.1)

/-- `conn.UDPConn.Ack`: a `MSG_SEQ_END`-byte datagram holding the type
byte `TYPE_ACK` followed by the big-endian seq. -/
def UDPConn.Ack (seq : Nat) : List Nat :=
  TYPE_ACK % 256 :: be32 seq

/-- State of a `conn.PendingMap`: the Go maps `Pending` and
`ackedMessages` become a `Finset` of keys together with a value
function read only at present keys.  The mutexes guard the
interleaving, which is modelled by the step relation below; the
`lastMinuteAcked` snapshot of the background `analyse` task is pure
observability and carries no protocol state. -/
structure PendingMap where
  Pending : Finset Nat
  val : Nat → Message
  ackedMessages : Finset Nat
  ackedVal : Nat → Message

/-- `conn.NewPendingMap`: both maps start empty. -/
def NewPendingMap : PendingMap :=
  { Pending := ∅, val := fun _ => default, ackedMessages := ∅,
    ackedVal := fun _ => default }

/-- `conn.PendingMap.AddMsg`: insert under key `k`, then mark the
stored message transmitted (the Go map holds a pointer, so the stored
entry is the transmitted message). -/
def PendingMap.AddMsg (now k : Nat) (v : Message) (s : PendingMap) : PendingMap :=
  { s with Pending := insert k s.Pending,
           val := Function.update s.val k (Message.Transmitted now v) }

/-- `conn.PendingMap.DelMsg`: look up `k`; when absent return `false`
without touching anything; when present mark the entry acked, move it
to `ackedMessages` and delete it from `Pending`. -/
def PendingMap.DelMsg (now k : Nat) (s : PendingMap) : Bool × PendingMap :=
  if k ∈ s.Pending then
    let v := s.val k
    (true,
      { Pending := s.Pending.erase k, val := s.val,
        ackedMessages := insert k s.ackedMessages,
        ackedVal := Function.update s.ackedVal k (Message.Acked now v) })
  else (false, s)

/-- State of a `conn.UDPPendingMap`: the plain map plus the `waitBits`
byte marking occupied `seq mod 8` slots. -/
structure UDPPendingMap extends PendingMap where
  waitBits : Nat

/-- `conn.NewUDPPendingMap`: empty maps, all slots free. -/
def NewUDPPendingMap : UDPPendingMap :=
  { NewPendingMap with waitBits := 0 }

/-- Effect of `conn.UDPPendingMap.AddMsg` once it proceeds past the
`waitCond.Wait` loop: insert under `k`, set bit `k mod 8`, and mark
the stored message transmitted.  The blocking of the caller while the
bit is set is modelled by the guard of `UDPPendingMap.Step.add`. -/
def UDPPendingMap.AddMsg (now k : Nat) (v : Message) (s : UDPPendingMap) :
    UDPPendingMap :=
  { s with Pending := insert k s.Pending,
           val := Function.update s.val k (Message.Transmitted now v),
           waitBits := s.waitBits ||| 1 <<< (k % 8) }

/-- Go uint32 subtraction `k - n`. -/
def sub32 (k n : Nat) : Nat := (k + (2 ^ 32 - n % 2 ^ 32)) % 2 ^ 32

/-- One iteration of the loss-scan loop of
`conn.UDPPendingMap.DelMsgAndGetLossMsgs` at loop counter `n`: look at
seq `pk = k - n`; when bit `pk mod 8` is still set the entry must be
in `Pending` (otherwise the Go code panics) and is appended to the
loss list. -/
def lossStep (wb : Nat) (pend : Finset Nat) (val : Nat → Message) (k : Nat)
    (acc : GoResult (List Message)) (n : Nat) : GoResult (List Message) :=
  match acc with
  | .panicked e => .panicked e
  | .ok l =>
    let pk := sub32 k n
    if wb &&& 1 <<< (pk % 8) > 0 then
      if pk ∈ pend then .ok (l ++ [val pk]) else .panicked ("udp pending map !ok")
    else .ok l

/-- `conn.UDPPendingMap.DelMsgAndGetLossMsgs`: when `k` is absent
return `(false, [])` without touching anything.  When present: delete
`k`, clear bit `k mod 8`, and if any slot other than those of `k` and
`k - 1` is still occupied, scan seqs `k - 7 .. k - 2` (loop counter
`n = 7` down to `2`) collecting still-pending entries as losses; then
mark the removed entry acked and move it to `ackedMessages`. -/
def UDPPendingMap.DelMsgAndGetLossMsgs (now k : Nat) (s : UDPPendingMap) :
    GoResult (Bool × List Message × UDPPendingMap) :=
  if k ∈ s.Pending then
    let v := s.val k
    let pend' := s.Pending.erase k
    let i := k % 8
    let wb' := s.waitBits &&& (255 ^^^ 1 <<< i)
    let prev := (255 ^^^ 1 <<< i) &&& (255 ^^^ 1 <<< (sub32 k 1 % 8))
    let scan :=
      if wb' &&& prev > 0 then
        [7, 6, 5, 4, 3, 2].foldl (lossStep wb' pend' s.val k) (.ok [])
      else .ok []
    match scan with
    | .panicked e => .panicked e
    | .ok loss =>
      .ok (true, loss,
        { Pending := pend', val := s.val,
          ackedMessages := insert k s.ackedMessages,
          ackedVal := Function.update s.ackedVal k (Message.Acked now v),
          waitBits := wb' })
  else .ok (false, [], s)

/-- Interleaving steps on a UDP pending map.  An `add` step can occur
only while bit `k mod 8` is clear: `conn.UDPPendingMap.AddMsg` holds
the lock in a `waitCond.Wait` loop until the occupying seq is acked,
so a blocked caller takes no step.  A `del` step is any completed
(non-panicking) run of `DelMsgAndGetLossMsgs`. -/
inductive UDPPendingMap.Step : UDPPendingMap → UDPPendingMap → Prop where
  | add (s : UDPPendingMap) (now k : Nat) (v : Message)
      (hfree : s.waitBits.testBit (k % 8) = false) :
      UDPPendingMap.Step s (UDPPendingMap.AddMsg now k v s)
  | del (s s' : UDPPendingMap) (now k : Nat) (found : Bool) (loss : List Message)
      (h : UDPPendingMap.DelMsgAndGetLossMsgs now k s = .ok (found, loss, s')) :
      UDPPendingMap.Step s s'

/-- States reachable from a fresh `conn.NewUDPPendingMap` by an
arbitrary interleaving of `AddMsg` and `DelMsgAndGetLossMsgs`. -/
inductive UDPPendingMap.Reachable : UDPPendingMap → Prop where
  | init : UDPPendingMap.Reachable NewUDPPendingMap
  | step {s s' : UDPPendingMap} : UDPPendingMap.Reachable s →
      UDPPendingMap.Step s s' → UDPPendingMap.Reachable s'

/-- Well-formedness of a UDP pending map: `waitBits` fits in a byte,
bit `r` is set exactly when some pending seq occupies slot `r`, and no
two pending seqs share a slot. -/
def UDPPendingMap.Inv (s : UDPPendingMap) : Prop :=
  s.waitBits < 256 ∧
  (∀ r, s.waitBits.testBit r = true ↔ ∃ j ∈ s.Pending, j % 8 = r) ∧
  Set.InjOn (· % 8) ↑s.Pending

/-- The loss list `DelMsgAndGetLossMsgs` actually produces on a
well-formed window: the still-pending seqs among `k - 7 .. k - 2`, in
ascending seq order. -/
def codeLossMsgs (k : Nat) (s : UDPPendingMap) : List Message :=
  (([k - 7, k - 6, k - 5, k - 4, k - 3, k - 2].filter (· ∈ s.Pending)).map s.val)

/-- The loss list the claim describes: the still-pending seqs among
the 7 positions `k - 7 .. k - 1` preceding `k`.  Stated from the
claim's words, for comparison with `codeLossMsgs`. -/
def specLossMsgs (k : Nat) (s : UDPPendingMap) : List Message :=
  (([k - 7, k - 6, k - 5, k - 4, k - 3, k - 2, k - 1].filter (· ∈ s.Pending)).map s.val)

/-- Found flag and loss list of a `DelMsgAndGetLossMsgs` result,
discarding the map state (whose value-function component has no
decidable equality). -/
def GoResult.delView : GoResult (Bool × List Message × UDPPendingMap) →
    Option (Bool × List Message)
  | .ok (found, loss, _) => some (found, loss)
  | .panicked _ => none

/-! Constants of the BBR congestion controller (`conn/const.go`). -/

/-- `conn.BBR_SCALE`. -/
def BBR_SCALE : Nat := 8

/-- `conn.BBR_UNIT`. -/
def BBR_UNIT : Nat := 1 <<< BBR_SCALE

/-- `conn.highGain`. -/
def highGain : Nat := BBR_UNIT * 2885 / 1000 + 1

/-- `conn.drainGain`. -/
def drainGain : Nat := BBR_UNIT * 1000 / 2885

/-- `conn.cwndGain`. -/
def cwndGain : Nat := BBR_UNIT * 2

/-- `conn.fullBwThresh`. -/
def fullBwThresh : Nat := BBR_UNIT * 5 / 4

/-- `conn.fullBwCnt`. -/
def fullBwCnt : Nat := 3

/-- `conn.pacingGain`: the probe-bandwidth gain cycle. -/
def pacingGain : List Nat :=
  [BBR_UNIT * 5 / 4, BBR_UNIT * 3 / 4, BBR_UNIT, BBR_UNIT, BBR_UNIT, BBR_UNIT,
   BBR_UNIT, BBR_UNIT]

/-- `conn.gainCycleLength = len(pacingGain)`. -/
def gainCycleLength : Nat := pacingGain.length

/-- `conn.bandwidthWindowSize = gainCycleLength + 2`. -/
def bandwidthWindowSize : Nat := gainCycleLength + 2

/-- The framing the claim asserts for every outbound datagram, stated
from the spec's words: `| crc32 | type | seq | len | body |` with the
CRC-32 computed over the bytes following it.  For comparison with the
datagrams `UDPConn.Write` and `UDPConn.Ack` actually emit. -/
def SpecPkgFramed (d : List Nat) : Prop :=
  ∃ t seq len body, List.length body = len ∧
    d = be32 (ChecksumIEEE (t :: (be32 seq ++ be32 len ++ body))) ++
        t :: (be32 seq ++ be32 len ++ body)

/-! Concrete inputs used by counterexamples and witnesses. -/

/-- A transmitted, not yet acked message with five recorded misses. -/
def mC5 : Message := { (default : Message) with status := MSG_STATUS_TRANSMITTED, miss := 5 }

/-- An acked message. -/
def mC6acked : Message := { (default : Message) with status := MSG_STATUS_ACKED }

/-- A header whose len field exceeds `MAX_MESSAGE_SIZE`. -/
def hdrC8 : List Nat := TYPE_NORMAL :: (be32 7 ++ be32 (MAX_MESSAGE_SIZE + 1))

/-- A fresh payload message with an empty cache. -/
def mC10 : Message := Message.New TYPE_NORMAL 5 [7]

/-- Pending map holding seqs 9 and 10, built by two `AddMsg` calls on
a fresh map. -/
def sC2 : UDPPendingMap :=
  UDPPendingMap.AddMsg 0 10 (Message.New TYPE_NORMAL 10 [2])
    (UDPPendingMap.AddMsg 0 9 (Message.New TYPE_NORMAL 9 [1]) NewUDPPendingMap)

/-- Pending map holding seqs 9, 10 and 12, built by three `AddMsg`
calls on a fresh map; acking 12 must report seq 9 (six behind) lost
while seq 10 is not scanned. -/
def sC2w : UDPPendingMap :=
  UDPPendingMap.AddMsg 0 12 (Message.New TYPE_NORMAL 12 [3]) sC2

/-! Helper lemmas. -/

theorem padTo_length (l : Nat) (xs : List Nat) : (padTo l xs).length = l := by
  simp [padTo]
  omega

theorem padTo_self (xs : List Nat) : padTo xs.length xs = xs := by
  simp [padTo]

theorem headerAndBody_length (m : Message) :
    m.headerAndBody.length = MSG_HEADER_SIZE + m.Len := by
  simp [Message.headerAndBody, be32, padTo_length, MSG_HEADER_SIZE]
  omega

/-! Theorems settling the claims. -/

/-- C9: the BBR constants have exactly the fixed-point values the spec
gives with `BBR_UNIT = 256`: `highGain = 739`, `drainGain = 88`,
`cwndGain = 512`, `fullBwThresh = 320`, `fullBwCnt = 3`, the
pacing-gain cycle is `[320, 192, 256, 256, 256, 256, 256, 256]` of
length 8, and `bandwidthWindowSize = gainCycleLength + 2 = 10`. -/
theorem C9_bbr_constants :
    highGain = 739 ∧ drainGain = 88 ∧ cwndGain = 512 ∧ fullBwThresh = 320 ∧
    fullBwCnt = 3 ∧ pacingGain = [320, 192, 256, 256, 256, 256, 256, 256] ∧
    pacingGain.length = 8 ∧ bandwidthWindowSize = gainCycleLength + 2 ∧
    bandwidthWindowSize = 10 := by
  decide

/-- C1: the claim demands that every byte sequence handed to `send` be
emitted by the peer's `recv` in order, but the receive path of the
sources at hand — `conn.UDPConn.ReadLoop` — is an unimplemented stub
whose body is `panic("UDPConn unimplemented ReadLoop")`, so no run of
the read loop ever delivers anything to the inbound channel. -/
theorem C1_readLoop_never_delivers :
    ∀ delivered : List (List Nat), UDPConn.ReadLoop ≠ GoResult.ok delivered := by
  intro delivered h
  simp [UDPConn.ReadLoop] at h

/-- C3 counterexample: the claim asserts every outbound datagram is
framed `| crc32 | type | seq | len | body |`, yet neither the ack
datagram for seq 1 (5 bytes) nor the datagram `Write` emits for an
empty body (9 bytes, no CRC) has that shape — any such framing is at
least 13 bytes long. -/
theorem C3_counterexample :
    ¬ SpecPkgFramed (UDPConn.Ack 1) ∧ ¬ SpecPkgFramed (UDPConn.Write 0 []).2 := by
  constructor <;>
    · rintro ⟨t, s, l, b, hb, hd⟩
      have hlen := congrArg List.length hd
      simp [UDPConn.Ack, UDPConn.Write, Message.Bytes, Message.New,
        Message.headerAndBody, padTo, be32] at hlen

/-- C3 amended: `UDPConn.Write` frames a NORMAL message as
`| type (1) | seq (4, big-endian) | len (4) | body |` with no CRC-32
prefix (it puts `Message.Bytes`, not `Message.PkgBytes`, on the wire),
and `UDPConn.Ack` emits a bare 5-byte `| type | seq |` datagram. -/
theorem C3_amended_framing (seq : Nat) (body : List Nat) :
    (UDPConn.Write seq body).2 =
      TYPE_NORMAL :: (be32 ((seq + 1) % 2 ^ 32) ++ be32 body.length ++ body) ∧
    (UDPConn.Write seq body).2.length = MSG_HEADER_SIZE + body.length ∧
    UDPConn.Ack seq = TYPE_ACK :: be32 seq ∧
    (UDPConn.Ack seq).length = MSG_SEQ_END := by
  refine ⟨?_, ?_, rfl, by simp [UDPConn.Ack, be32, MSG_SEQ_END]⟩
  · simp [UDPConn.Write, Message.Bytes, Message.New, Message.headerAndBody,
      padTo_self, TYPE_NORMAL]
  · simp [UDPConn.Write, Message.Bytes, Message.New, headerAndBody_length,
      Message.headerAndBody, be32, padTo_length, MSG_HEADER_SIZE]
    omega

/-- C5 counterexample: the claim says an RTO firing on an unacked
message increments `missCount`; on a transmitted, unacked message with
`miss = 5` the firing resends (the resend callback runs) but stores 0
into the miss counter instead of 6. -/
theorem C5_counterexample :
    mC5.status &&& MSG_STATUS_ACKED = 0 ∧
    (UDPMessage.fireRTO mC5 none).2.1 = true ∧
    (UDPMessage.fireRTO mC5 none).1.miss = 0 ∧
    (UDPMessage.fireRTO mC5 none).1.miss ≠ mC5.miss + 1 := by
  decide

/-- C5 amended: when the RTO timer fires on a message whose acked bit
is clear, the resend path leaves `transmittedAt` unchanged and resets
`missCount` to 0 (`ResetMiss`), rather than incrementing it. -/
theorem C5_amended_fire_keeps_transmittedAt_resets_miss (m : Message)
    (e : Option String) (h : m.status &&& MSG_STATUS_ACKED = 0) :
    (UDPMessage.fireRTO m e).1.transmittedAt = m.transmittedAt ∧
    (UDPMessage.fireRTO m e).1.miss = 0 ∧
    (UDPMessage.fireRTO m e).2.1 = true := by
  simp [UDPMessage.fireRTO, h, UDPMessage.ResetMiss]

/-- Witness for the amended C5 at the concrete message `mC5`. -/
theorem C5_witness :
    mC5.status &&& MSG_STATUS_ACKED = 0 ∧
    ((UDPMessage.fireRTO mC5 none).1.transmittedAt = mC5.transmittedAt ∧
     (UDPMessage.fireRTO mC5 none).1.miss = 0 ∧
     (UDPMessage.fireRTO mC5 none).2.1 = true) :=
  ⟨by decide, C5_amended_fire_keeps_transmittedAt_resets_miss mC5 none (by decide)⟩

/-- C6: when an armed RTO timer fires on a message whose acked bit is
set, nothing is resent and the timer is not re-armed; otherwise the
resend callback runs and the timer is re-armed exactly when the
callback returned no error. -/
theorem C6_rto_fire (m : Message) (e : Option String) :
    (m.status &&& MSG_STATUS_ACKED > 0 → UDPMessage.fireRTO m e = (m, false, false)) ∧
    (m.status &&& MSG_STATUS_ACKED = 0 →
      (UDPMessage.fireRTO m e).2.1 = true ∧
      ((UDPMessage.fireRTO m e).2.2 = true ↔ e = none)) := by
  constructor
  · intro h
    simp [UDPMessage.fireRTO, h]
  · intro h
    simp [UDPMessage.fireRTO, h, Option.isNone_iff_eq_none]

/-- Witness for C6 at an acked message (`mC6acked`) and at an unacked
one (`mC5`) with a failing resend callback. -/
theorem C6_witness :
    UDPMessage.fireRTO mC6acked none = (mC6acked, false, false) ∧
    ((UDPMessage.fireRTO mC5 (some ("boom"))).2.1 = true ∧
     ((UDPMessage.fireRTO mC5 (some ("boom"))).2.2 = true ↔
       (some ("boom") : Option String) = none)) :=
  ⟨(C6_rto_fire mC6acked none).1 (by decide),
   (C6_rto_fire mC5 (some ("boom"))).2 (by decide)⟩

/-- C8 counterexample: the claim says a header whose len field exceeds
`MAX_MESSAGE_SIZE` makes the decode return an error result; on such a
header `msg.NewByHeader` panics instead (its Go signature returns only
`*Message`, with no error path), so the parse aborts rather than
returning an error. -/
theorem C8_counterexample :
    NewByHeader hdrC8 = GoResult.panicked ("msg len > max len") ∧
    ∀ m : Message, NewByHeader hdrC8 ≠ GoResult.ok m := by
  have heq : NewByHeader hdrC8 = GoResult.panicked ("msg len > max len") := by decide
  exact ⟨heq, fun m h => by rw [heq] at h; exact GoResult.noConfusion h⟩

/-- C8 amended: parsing any header whose len field exceeds
`MAX_MESSAGE_SIZE` panics (aborts) rather than returning a message or
an error value. -/
theorem C8_amended_oversize_panics (header : List Nat)
    (h : beUint32At header MSG_LEN_BEGIN > MAX_MESSAGE_SIZE) :
    NewByHeader header = GoResult.panicked ("msg len > max len") := by
  simp [NewByHeader, h]

/-- Witness for the amended C8 at the concrete header `hdrC8`. -/
theorem C8_witness :
    beUint32At hdrC8 MSG_LEN_BEGIN > MAX_MESSAGE_SIZE ∧
    NewByHeader hdrC8 = GoResult.panicked ("msg len > max len") :=
  ⟨by decide, C8_amended_oversize_panics hdrC8 (by decide)⟩

/-- C10: on a message with an empty cache, calling `Bytes` first
stores the `MSG_HEADER_SIZE + Len`-byte header-only encoding in the
shared cache, a subsequent `PkgBytes` returns exactly that cached
buffer (no 4-byte CRC prefix) without changing the message, and
`TotalSize` reports the cached length — whereas calling `PkgBytes`
first yields the `PKG_HEADER_SIZE`-longer CRC-framed buffer, so both
`PkgBytes` and `TotalSize` depend on which encoding ran first. -/
theorem C10_first_encoding_wins (m : Message) (h : m.cache = []) :
    (m.Bytes).2.cache = (m.Bytes).1 ∧
    (m.Bytes).1.length = MSG_HEADER_SIZE + m.Len ∧
    ((m.Bytes).2.PkgBytes).1 = (m.Bytes).1 ∧
    ((m.Bytes).2.PkgBytes).2 = (m.Bytes).2 ∧
    (m.Bytes).2.TotalSize = MSG_HEADER_SIZE + m.Len ∧
    (m.PkgBytes).1.length = PKG_HEADER_SIZE + MSG_HEADER_SIZE + m.Len ∧
    ((m.Bytes).2.PkgBytes).1 ≠ (m.PkgBytes).1 ∧
    (m.PkgBytes).2.TotalSize ≠ (m.Bytes).2.TotalSize := by
  have hlen9 : m.headerAndBody.length = 9 + m.Len := by
    simpa [MSG_HEADER_SIZE] using headerAndBody_length m
  have hB : m.Bytes = (m.headerAndBody, { m with cache := m.headerAndBody }) := by
    simp [Message.Bytes, h]
  have hP1 : m.PkgBytes =
      (be32 (ChecksumIEEE m.headerAndBody) ++ m.headerAndBody,
       { m with cache := be32 (ChecksumIEEE m.headerAndBody) ++ m.headerAndBody }) := by
    simp [Message.PkgBytes, h]
  have hpos : 0 < m.headerAndBody.length := by omega
  have hP2 : ({ m with cache := m.headerAndBody } : Message).PkgBytes =
      (m.headerAndBody, { m with cache := m.headerAndBody }) := by
    simp [Message.PkgBytes, hpos]
  rw [hB, hP1, hP2]
  refine ⟨rfl, by simpa [MSG_HEADER_SIZE] using hlen9, rfl, rfl, ?_, ?_, ?_, ?_⟩
  · simp [Message.TotalSize, hpos, MSG_HEADER_SIZE]
    omega
  · simp [Message.TotalSize, be32, MSG_HEADER_SIZE, PKG_HEADER_SIZE]
    omega
  · intro heq
    have := congrArg List.length heq
    simp [be32] at this
    omega
  · simp [Message.TotalSize, hpos, be32]
    omega

/-- Witness for C10 at the concrete fresh message `mC10`. -/
theorem C10_witness :
    mC10.cache = [] ∧
    ((mC10.Bytes).2.cache = (mC10.Bytes).1 ∧
     (mC10.Bytes).1.length = MSG_HEADER_SIZE + mC10.Len ∧
     ((mC10.Bytes).2.PkgBytes).1 = (mC10.Bytes).1 ∧
     ((mC10.Bytes).2.PkgBytes).2 = (mC10.Bytes).2 ∧
     (mC10.Bytes).2.TotalSize = MSG_HEADER_SIZE + mC10.Len ∧
     (mC10.PkgBytes).1.length = PKG_HEADER_SIZE + MSG_HEADER_SIZE + mC10.Len ∧
     ((mC10.Bytes).2.PkgBytes).1 ≠ (mC10.PkgBytes).1 ∧
     (mC10.PkgBytes).2.TotalSize ≠ (mC10.Bytes).2.TotalSize) :=
  ⟨rfl, C10_first_encoding_wins mC10 rfl⟩

theorem udpDel_ok_cases (now k : Nat) (s s' : UDPPendingMap) (found : Bool)
    (loss : List Message)
    (h : UDPPendingMap.DelMsgAndGetLossMsgs now k s = GoResult.ok (found, loss, s')) :
    (found = false ∧ s' = s ∧ loss = [] ∧ k ∉ s.Pending) ∨
    (found = true ∧ k ∈ s.Pending ∧ s'.Pending = s.Pending.erase k ∧
     s'.val = s.val ∧ s'.waitBits = s.waitBits &&& (255 ^^^ 1 <<< (k % 8))) := by
  by_cases hk : k ∈ s.Pending
  · right
    simp only [UDPPendingMap.DelMsgAndGetLossMsgs, hk, if_true] at h
    split at h
    · exact absurd h (by simp)
    · simp only [GoResult.ok.injEq, Prod.mk.injEq] at h
      refine ⟨h.1.symm, hk, ?_, ?_, ?_⟩ <;> rw [← h.2.2]
  · left
    simp only [UDPPendingMap.DelMsgAndGetLossMsgs, hk, if_false] at h
    simp only [GoResult.ok.injEq, Prod.mk.injEq] at h
    exact ⟨h.1.symm, h.2.2.symm, h.2.1.symm, hk⟩

/-- C7: deleting a seq that is not pending — in particular one already
acked and removed — returns `found = false` from both
`PendingMap.DelMsg` and `UDPPendingMap.DelMsgAndGetLossMsgs` and
leaves the whole state (pending set, acked-messages set, waitBits)
unchanged; consequently a second ack of the same seq is an idempotent
no-op. -/
theorem C7_unknown_ack_noop (now now1 now2 k : Nat) (s : PendingMap)
    (u : UDPPendingMap) (hs : k ∉ s.Pending) (hu : k ∉ u.Pending) :
    PendingMap.DelMsg now k s = (false, s) ∧
    UDPPendingMap.DelMsgAndGetLossMsgs now k u = GoResult.ok (false, [], u) ∧
    (∀ w w' : PendingMap, PendingMap.DelMsg now1 k w = (true, w') →
      PendingMap.DelMsg now2 k w' = (false, w')) ∧
    (∀ (w w' : UDPPendingMap) (loss : List Message),
      UDPPendingMap.DelMsgAndGetLossMsgs now1 k w = GoResult.ok (true, loss, w') →
      UDPPendingMap.DelMsgAndGetLossMsgs now2 k w' = GoResult.ok (false, [], w')) := by
  refine ⟨by simp [PendingMap.DelMsg, hs], by simp [UDPPendingMap.DelMsgAndGetLossMsgs, hu],
    ?_, ?_⟩
  · intro w w' hdel
    by_cases hk : k ∈ w.Pending
    · simp only [PendingMap.DelMsg, hk, if_true, Prod.mk.injEq, true_and] at hdel
      have hnk : k ∉ w'.Pending := by
        rw [← hdel]
        simp
      simp [PendingMap.DelMsg, hnk]
    · simp [PendingMap.DelMsg, hk] at hdel
  · intro w w' loss hdel
    rcases udpDel_ok_cases now1 k w w' true loss hdel with ⟨hfalse, -⟩ | ⟨-, -, herase, -⟩
    · exact absurd hfalse (by simp)
    · have hnk : k ∉ w'.Pending := by
        rw [herase]
        exact Finset.not_mem_erase k w.Pending
      simp [UDPPendingMap.DelMsgAndGetLossMsgs, hnk]

theorem pos_iff_testBit (x : Nat) : 0 < x ↔ ∃ i, x.testBit i = true := by
  constructor
  · intro h
    by_contra hc
    push_neg at hc
    have hx : x = 0 := Nat.eq_of_testBit_eq fun i => by
      rw [Nat.zero_testBit]
      exact Bool.not_eq_true (x.testBit i) ▸ hc i
    omega
  · rintro ⟨i, hi⟩
    rcases Nat.eq_zero_or_pos x with h | h
    · rw [h, Nat.zero_testBit] at hi
      exact absurd hi (by simp)
    · exact h

theorem and_shift_pos (a i : Nat) : 0 < a &&& 1 <<< i ↔ a.testBit i = true := by
  rw [pos_iff_testBit]
  constructor
  · rintro ⟨r, hr⟩
    rw [Nat.testBit_and, Bool.and_eq_true] at hr
    have h2 : (2 ^ i).testBit r = true := by
      simpa [Nat.shiftLeft_eq] using hr.2
    rw [Nat.testBit_two_pow] at h2
    have : i = r := by simpa using h2
    rw [this]
    exact hr.1
  · intro h
    refine ⟨i, ?_⟩
    rw [Nat.testBit_and, h]
    simp [Nat.shiftLeft_eq, Nat.testBit_two_pow]

theorem testBit_maskOut (i r : Nat) (hi : i < 8) (hr : r < 8) (hir : r ≠ i) :
    (255 ^^^ 1 <<< i).testBit r = true := by
  interval_cases i <;> interval_cases r <;> first | decide | exact absurd rfl hir

theorem testBit_maskOut_self (i : Nat) (hi : i < 8) :
    (255 ^^^ 1 <<< i).testBit i = false := by
  interval_cases i <;> decide

theorem maskOut_lt (i : Nat) (hi : i < 8) : 255 ^^^ 1 <<< i < 256 := by
  interval_cases i <;> decide

theorem shift_lt (i : Nat) (hi : i < 8) : 1 <<< i < 2 ^ 8 := by
  interval_cases i <;> decide

theorem testBit_high {x r : Nat} (hx : x < 256) (hr : 8 ≤ r) : x.testBit r = false := by
  apply Nat.testBit_lt_two_pow
  calc x < 256 := hx
    _ = 2 ^ 8 := by norm_num
    _ ≤ 2 ^ r := Nat.pow_le_pow_right (by norm_num) hr

theorem and_pos_iff (a b : Nat) (hb : b < 256) :
    0 < a &&& b ↔ ∃ r, r < 8 ∧ a.testBit r = true ∧ b.testBit r = true := by
  rw [pos_iff_testBit]
  constructor
  · rintro ⟨r, hr⟩
    rw [Nat.testBit_and, Bool.and_eq_true] at hr
    refine ⟨r, ?_, hr.1, hr.2⟩
    by_contra hge
    push_neg at hge
    rw [testBit_high hb hge] at hr
    exact absurd hr.2 (by simp)
  · rintro ⟨r, -, h1, h2⟩
    refine ⟨r, ?_⟩
    rw [Nat.testBit_and, h1, h2]
    rfl

theorem inv_init : NewUDPPendingMap.Inv := by
  refine ⟨by decide, fun r => ?_, by simp [NewUDPPendingMap, NewPendingMap]⟩
  simp [NewUDPPendingMap, NewPendingMap, Nat.zero_testBit]

theorem inv_add (s : UDPPendingMap) (now k : Nat) (v : Message)
    (hfree : s.waitBits.testBit (k % 8) = false) (hinv : s.Inv) :
    (UDPPendingMap.AddMsg now k v s).Inv := by
  obtain ⟨hlt, hbits, hinj⟩ := hinv
  have hk8 : k % 8 < 8 := Nat.mod_lt _ (by norm_num)
  refine ⟨?_, ?_, ?_⟩
  · have h1 : s.waitBits < 2 ^ 8 := by simpa using hlt
    simpa using Nat.or_lt_two_pow h1 (shift_lt _ hk8)
  · intro r
    simp only [UDPPendingMap.AddMsg, Nat.testBit_or, Bool.or_eq_true, hbits,
      Finset.mem_insert]
    have hpow : (1 <<< (k % 8)).testBit r = decide (k % 8 = r) := by
      simp [Nat.shiftLeft_eq, Nat.testBit_two_pow]
    rw [hpow]
    constructor
    · rintro (⟨j, hj, hjr⟩ | hr)
      · exact ⟨j, Or.inr hj, hjr⟩
      · exact ⟨k, Or.inl rfl, of_decide_eq_true hr⟩
    · rintro ⟨j, hj | hj, hjr⟩
      · refine Or.inr ?_
        rw [hj] at hjr
        simp [hjr]
      · exact Or.inl ⟨j, hj, hjr⟩
  · intro a ha b hb hab
    have hab' : a % 8 = b % 8 := hab
    simp only [UDPPendingMap.AddMsg, Finset.coe_insert, Set.mem_insert_iff,
      Finset.mem_coe] at ha hb
    rcases ha with ha | ha <;> rcases hb with hb | hb
    · rw [ha, hb]
    · exfalso
      have ht : s.waitBits.testBit (k % 8) = true :=
        (hbits (k % 8)).mpr ⟨b, hb, by rw [← hab', ha]⟩
      rw [hfree] at ht
      exact absurd ht (by simp)
    · exfalso
      have ht : s.waitBits.testBit (k % 8) = true :=
        (hbits (k % 8)).mpr ⟨a, ha, by rw [hab', hb]⟩
      rw [hfree] at ht
      exact absurd ht (by simp)
    · exact hinj (Finset.mem_coe.mpr ha) (Finset.mem_coe.mpr hb) hab

theorem inv_del (s s' : UDPPendingMap) (now k : Nat) (found : Bool)
    (loss : List Message)
    (h : UDPPendingMap.DelMsgAndGetLossMsgs now k s = GoResult.ok (found, loss, s'))
    (hinv : s.Inv) : s'.Inv := by
  obtain ⟨hlt, hbits, hinj⟩ := hinv
  rcases udpDel_ok_cases now k s s' found loss h with ⟨-, hss, -⟩ | ⟨-, hk, hpend, -, hwb⟩
  · rw [hss]
    exact ⟨hlt, hbits, hinj⟩
  · have hk8 : k % 8 < 8 := Nat.mod_lt _ (by norm_num)
    refine ⟨?_, ?_, ?_⟩
    · rw [hwb]
      exact lt_of_le_of_lt Nat.and_le_left hlt
    · intro r
      rw [hwb, hpend, Nat.testBit_and]
      rcases lt_or_ge r 8 with hr | hr
      · by_cases hri : r = k % 8
        · rw [hri, testBit_maskOut_self _ hk8, Bool.and_false]
          constructor
          · intro hfalse
            exact absurd hfalse (by simp)
          · rintro ⟨j, hj, hjr⟩
            rw [Finset.mem_erase] at hj
            refine absurd (hinj (Finset.mem_coe.mpr hj.2) (Finset.mem_coe.mpr hk) ?_) hj.1
            show j % 8 = k % 8
            rw [hjr]
        · rw [testBit_maskOut _ _ hk8 hr hri, Bool.and_true, hbits]
          constructor
          · rintro ⟨j, hj, hjr⟩
            refine ⟨j, Finset.mem_erase.mpr ⟨?_, hj⟩, hjr⟩
            intro hjk
            rw [hjk] at hjr
            exact hri hjr.symm
          · rintro ⟨j, hj, hjr⟩
            exact ⟨j, (Finset.mem_erase.mp hj).2, hjr⟩
      · rw [testBit_high hlt hr, Bool.false_and]
        constructor
        · intro hfalse
          exact absurd hfalse (by simp)
        · rintro ⟨j, hj, hjr⟩
          have : j % 8 < 8 := Nat.mod_lt _ (by norm_num)
          omega
    · rw [hpend]
      exact hinj.mono (by simp [Finset.erase_subset])

theorem reachable_inv (s : UDPPendingMap) (h : s.Reachable) : s.Inv := by
  induction h with
  | init => exact inv_init
  | step hr hstep ih =>
    cases hstep with
    | add now k v hfree => exact inv_add _ now k v hfree ih
    | del s2 now k found loss hdel => exact inv_del _ _ now k found loss hdel ih

/-- C4: in every state reachable by an interleaving of `AddMsg` and
`DelMsgAndGetLossMsgs` on a fresh UDP pending map, a `waitBits` slot
bit is set exactly when a pending seq occupies that `seq mod 8` slot —
so an `add` step (enabled only while bit `k mod 8` is clear, the
caller blocking in `waitCond.Wait` until the occupying seq is acked
away by a `del` step) can never double-book a slot — at most one
pending seq occupies each slot, and the pending set never holds more
than 8 entries. -/
theorem C4_window_invariant (s : UDPPendingMap) (h : s.Reachable) :
    (∀ r, s.waitBits.testBit r = true ↔ ∃ j ∈ s.Pending, j % 8 = r) ∧
    Set.InjOn (· % 8) ↑s.Pending ∧ s.Pending.card ≤ 8 := by
  obtain ⟨-, hbits, hinj⟩ := reachable_inv s h
  refine ⟨hbits, hinj, ?_⟩
  have := Finset.card_le_card_of_injOn (· % 8)
    (t := Finset.range 8) (fun a _ => Finset.mem_range.mpr (Nat.mod_lt _ (by norm_num)))
    hinj
  simpa using this

theorem sub32_eq (k n : Nat) (hn : n ≤ k) (hk : k < 2 ^ 32) (hn32 : n < 2 ^ 32) :
    sub32 k n = k - n := by
  have h1 : k + (2 ^ 32 - n % 2 ^ 32) = 2 ^ 32 + (k - n) := by
    rw [Nat.mod_eq_of_lt hn32]
    omega
  rw [sub32, h1, Nat.add_mod_left]
  exact Nat.mod_eq_of_lt (by omega)

theorem lossFold (wb : Nat) (pend : Finset Nat) (val : Nat → Message) (k : Nat)
    (L : List Nat) (acc : List Message)
    (hL : ∀ n ∈ L, 2 ≤ n ∧ n ≤ 7) (h7 : 7 ≤ k) (hk : k < 2 ^ 32)
    (hbit : ∀ n ∈ L, (0 < wb &&& 1 <<< ((k - n) % 8) ↔ (k - n) ∈ pend)) :
    L.foldl (lossStep wb pend val k) (GoResult.ok acc) =
      GoResult.ok (acc ++ ((L.map (k - ·)).filter (· ∈ pend)).map val) := by
  induction L generalizing acc with
  | nil => simp
  | cons n L ih =>
    have hn := hL n (List.mem_cons_self n L)
    have hsub : sub32 k n = k - n := sub32_eq k n (by omega) hk (by omega)
    rw [List.foldl_cons]
    have hstep : lossStep wb pend val k (GoResult.ok acc) n =
        if (k - n) ∈ pend then GoResult.ok (acc ++ [val (k - n)])
        else GoResult.ok acc := by
      by_cases hp : (k - n) ∈ pend
      · have hpos : 0 < wb &&& 1 <<< ((k - n) % 8) :=
          (hbit n (List.mem_cons_self n L)).mpr hp
        simp [lossStep, hsub, hpos, hp]
      · have hneg : ¬ 0 < wb &&& 1 <<< ((k - n) % 8) := fun hpos =>
          hp ((hbit n (List.mem_cons_self n L)).mp hpos)
        have h0 : wb &&& 1 <<< ((k - n) % 8) = 0 := Nat.eq_zero_of_not_pos hneg
        simp [lossStep, hsub, hp, h0]
    rw [hstep]
    have ihL := fun acc2 => ih acc2 (fun m hm => hL m (List.mem_cons_of_mem n hm))
      (fun m hm => hbit m (List.mem_cons_of_mem n hm))
    by_cases hp : (k - n) ∈ pend
    · rw [if_pos hp, ihL (acc ++ [val (k - n)])]
      simp [List.filter_cons, hp]
    · rw [if_neg hp, ihL acc]
      simp [List.filter_cons, hp]

/-- C2 counterexample: on the map holding pending seqs 9 and 10,
acking seq 10 succeeds and returns an empty loss list even though seq
9 — still pending, within the 7 positions `k - 7 .. k - 1` preceding
`k = 10` that the claim says are reported — is not returned (the scan
deliberately skips the immediate predecessor `k - 1`). -/
theorem C2_counterexample :
    (UDPPendingMap.DelMsgAndGetLossMsgs 0 10 sC2).delView = some (true, []) ∧
    9 ∈ sC2.Pending ∧ 10 - 7 ≤ 9 ∧ 9 ≤ 10 - 1 ∧
    (specLossMsgs 10 sC2).length = 1 := by
  decide

/-- C2 amended: on a well-formed window (all pending seqs within
`k - 7 .. k`, `waitBits` matching the pending slots), acking a pending
seq `k` removes it from the pending set and returns exactly the
still-pending messages whose seq lies in the six positions
`k - 7 .. k - 2` — the immediate predecessor `k - 1` is never
reported. -/
theorem C2_amended_loss_scan (now k : Nat) (s : UDPPendingMap)
    (h7 : 7 ≤ k) (hk32 : k < 2 ^ 32) (hmem : k ∈ s.Pending)
    (hwin : ∀ j ∈ s.Pending, k - 7 ≤ j ∧ j ≤ k)
    (hbits : ∀ r < 8, (s.waitBits.testBit r = true ↔ ∃ j ∈ s.Pending, j % 8 = r)) :
    ∃ s', UDPPendingMap.DelMsgAndGetLossMsgs now k s =
        GoResult.ok (true, codeLossMsgs k s, s') ∧
      s'.Pending = s.Pending.erase k ∧ k ∉ s'.Pending ∧
      codeLossMsgs k s =
        (([k - 7, k - 6, k - 5, k - 4, k - 3, k - 2].filter (· ∈ s.Pending)).map s.val) := by
  have hi8 : k % 8 < 8 := Nat.mod_lt _ (by norm_num)
  have hk18 : (k - 1) % 8 < 8 := Nat.mod_lt _ (by norm_num)
  have hsub1 : sub32 k 1 = k - 1 := sub32_eq k 1 (by omega) hk32 (by norm_num)
  have hslot : ∀ pk, k - 7 ≤ pk → pk ≤ k →
      (s.waitBits.testBit (pk % 8) = true ↔ pk ∈ s.Pending) := by
    intro pk h1 h2
    constructor
    · intro ht
      obtain ⟨j, hj, hjr⟩ := (hbits (pk % 8) (Nat.mod_lt _ (by norm_num))).mp ht
      obtain ⟨hj1, hj2⟩ := hwin j hj
      have hjpk : j = pk := by omega
      rw [← hjpk]
      exact hj
    · intro hp
      exact (hbits (pk % 8) (Nat.mod_lt _ (by norm_num))).mpr ⟨pk, hp, rfl⟩
  have hwbb : ∀ r, r < 8 → r ≠ k % 8 →
      (s.waitBits &&& (255 ^^^ 1 <<< (k % 8))).testBit r = s.waitBits.testBit r := by
    intro r hr hri
    rw [Nat.testBit_and, testBit_maskOut _ _ hi8 hr hri, Bool.and_true]
  have hbit : ∀ n, 2 ≤ n → n ≤ 7 →
      (0 < s.waitBits &&& (255 ^^^ 1 <<< (k % 8)) &&& 1 <<< ((k - n) % 8) ↔
        (k - n) ∈ s.Pending.erase k) := by
    intro n h2 h7'
    have hpk8 : (k - n) % 8 < 8 := Nat.mod_lt _ (by norm_num)
    have hne : (k - n) % 8 ≠ k % 8 := by omega
    rw [and_shift_pos, hwbb _ hpk8 hne, hslot (k - n) (by omega) (by omega)]
    constructor
    · intro hp
      exact Finset.mem_erase.mpr ⟨by omega, hp⟩
    · intro hp
      exact (Finset.mem_erase.mp hp).2
  have hmapeq : ([7, 6, 5, 4, 3, 2].map (k - ·)) =
      [k - 7, k - 6, k - 5, k - 4, k - 3, k - 2] := by
    simp
  have hfiltereq : ([k - 7, k - 6, k - 5, k - 4, k - 3, k - 2].filter
        (· ∈ s.Pending.erase k)) =
      ([k - 7, k - 6, k - 5, k - 4, k - 3, k - 2].filter (· ∈ s.Pending)) := by
    apply List.filter_congr
    intro a ha
    simp only [List.mem_cons, List.not_mem_nil, or_false] at ha
    have hak : a ≠ k := by omega
    simp [Finset.mem_erase, hak]
  have hfold := lossFold (s.waitBits &&& (255 ^^^ 1 <<< (k % 8))) (s.Pending.erase k)
    s.val k [7, 6, 5, 4, 3, 2] []
    (by intro n hn; simp at hn; omega) h7 hk32
    (by
      intro n hn
      simp only [List.mem_cons, List.not_mem_nil, or_false] at hn
      rcases hn with rfl | rfl | rfl | rfl | rfl | rfl <;>
        exact hbit _ (by norm_num) (by norm_num))
  have hfold2 : [7, 6, 5, 4, 3, 2].foldl
      (lossStep (s.waitBits &&& (255 ^^^ 1 <<< (k % 8))) (s.Pending.erase k) s.val k)
      (GoResult.ok []) = GoResult.ok (codeLossMsgs k s) := by
    rw [hfold, hmapeq, hfiltereq]
    simp [codeLossMsgs]
  by_cases hg : s.waitBits &&& (255 ^^^ 1 <<< (k % 8)) &&&
      ((255 ^^^ 1 <<< (k % 8)) &&& (255 ^^^ 1 <<< (sub32 k 1 % 8))) > 0
  · refine ⟨{ Pending := s.Pending.erase k, val := s.val,
              ackedMessages := insert k s.ackedMessages,
              ackedVal := Function.update s.ackedVal k (Message.Acked now (s.val k)),
              waitBits := s.waitBits &&& (255 ^^^ 1 <<< (k % 8)) },
      ?_, rfl, Finset.not_mem_erase k s.Pending, rfl⟩
    simp only [UDPPendingMap.DelMsgAndGetLossMsgs, hmem, if_true, if_pos hg, hfold2]
  · have hempty : codeLossMsgs k s = [] := by
      rw [codeLossMsgs, ← hfiltereq]
      rw [List.map_eq_nil_iff, List.filter_eq_nil_iff]
      intro a ha
      simp only [List.mem_cons, List.not_mem_nil, or_false] at ha
      simp only [decide_eq_true_eq]
      intro hmem'
      apply hg
      have hae : ∃ n, 2 ≤ n ∧ n ≤ 7 ∧ a = k - n := by
        rcases ha with rfl | rfl | rfl | rfl | rfl | rfl
        · exact ⟨7, by omega, by omega, rfl⟩
        · exact ⟨6, by omega, by omega, rfl⟩
        · exact ⟨5, by omega, by omega, rfl⟩
        · exact ⟨4, by omega, by omega, rfl⟩
        · exact ⟨3, by omega, by omega, rfl⟩
        · exact ⟨2, by omega, by omega, rfl⟩
      obtain ⟨n, hn2, hn7, rfl⟩ := hae
      have hpk8 : (k - n) % 8 < 8 := Nat.mod_lt _ (by norm_num)
      have hne1 : (k - n) % 8 ≠ k % 8 := by omega
      have hne2 : (k - n) % 8 ≠ (k - 1) % 8 := by omega
      have hb1 : (s.waitBits &&& (255 ^^^ 1 <<< (k % 8))).testBit ((k - n) % 8) = true := by
        rw [hwbb _ hpk8 hne1]
        exact (hslot (k - n) (by omega) (by omega)).mpr ((Finset.mem_erase.mp hmem').2)
      have hb2 : ((255 ^^^ 1 <<< (k % 8)) &&&
          (255 ^^^ 1 <<< (sub32 k 1 % 8))).testBit ((k - n) % 8) = true := by
        rw [hsub1, Nat.testBit_and, testBit_maskOut _ _ hi8 hpk8 hne1,
          testBit_maskOut _ _ hk18 hpk8 hne2]
        rfl
      refine (pos_iff_testBit _).mpr ⟨(k - n) % 8, ?_⟩
      rw [Nat.testBit_and, hb1, hb2]
      rfl
    refine ⟨{ Pending := s.Pending.erase k, val := s.val,
              ackedMessages := insert k s.ackedMessages,
              ackedVal := Function.update s.ackedVal k (Message.Acked now (s.val k)),
              waitBits := s.waitBits &&& (255 ^^^ 1 <<< (k % 8)) },
      ?_, rfl, Finset.not_mem_erase k s.Pending, rfl⟩
    rw [hempty]
    simp only [UDPPendingMap.DelMsgAndGetLossMsgs, hmem, if_true, if_neg hg]

/-- Witness for the amended C2 at the concrete map `sC2w` (pending
seqs 9, 10 and 12) acking seq 12: the loss scan reports seqs 9 and 10. -/
theorem C2_witness :
    ∃ s', UDPPendingMap.DelMsgAndGetLossMsgs 0 12 sC2w =
        GoResult.ok (true, codeLossMsgs 12 sC2w, s') ∧
      s'.Pending = sC2w.Pending.erase 12 ∧ 12 ∉ s'.Pending ∧
      codeLossMsgs 12 sC2w =
        (([12 - 7, 12 - 6, 12 - 5, 12 - 4, 12 - 3, 12 - 2].filter
          (· ∈ sC2w.Pending)).map sC2w.val) :=
  C2_amended_loss_scan 0 12 sC2w (by decide) (by decide) (by decide)
    (by decide) (by decide)

/-- Witness for C4 at the concrete reachable state `sC2`. -/
theorem C4_witness :
    (∀ r, sC2.waitBits.testBit r = true ↔ ∃ j ∈ sC2.Pending, j % 8 = r) ∧
    Set.InjOn (· % 8) ↑sC2.Pending ∧ sC2.Pending.card ≤ 8 :=
  C4_window_invariant sC2
    (UDPPendingMap.Reachable.step
      (UDPPendingMap.Reachable.step UDPPendingMap.Reachable.init
        (UDPPendingMap.Step.add NewUDPPendingMap 0 9
          (Message.New TYPE_NORMAL 9 [1]) (by decide)))
      (UDPPendingMap.Step.add _ 0 10 (Message.New TYPE_NORMAL 10 [2]) (by decide)))

/-- Witness for C7 at seq 5 on fresh maps. -/
theorem C7_witness :
    (5 ∉ NewPendingMap.Pending ∧ 5 ∉ NewUDPPendingMap.Pending) ∧
    (PendingMap.DelMsg 0 5 NewPendingMap = (false, NewPendingMap) ∧
     UDPPendingMap.DelMsgAndGetLossMsgs 0 5 NewUDPPendingMap =
       GoResult.ok (false, [], NewUDPPendingMap) ∧
     (∀ w w' : PendingMap, PendingMap.DelMsg 1 5 w = (true, w') →
       PendingMap.DelMsg 2 5 w' = (false, w')) ∧
     (∀ (w w' : UDPPendingMap) (loss : List Message),
       UDPPendingMap.DelMsgAndGetLossMsgs 1 5 w = GoResult.ok (true, loss, w') →
       UDPPendingMap.DelMsgAndGetLossMsgs 2 5 w' = GoResult.ok (false, [], w'))) :=
  ⟨⟨by decide, by decide⟩,
   C7_unknown_ack_noop 0 1 2 5 NewPendingMap NewUDPPendingMap (by decide) (by decide)⟩

end SkycoinNet
